import Mathlib

/-!
Verification of the omnitranscripts transcription core against its design
specification.

The development shallowly embeds the relevant program parts:

* the subtitle writers `generateSRT` / `generateVTT` and the time formatters
  `formatSRTTime` / `formatVTTTime` of `web-dashboard.go` (segment times,
  `float64` in the source, are modelled as rationals; Go `int` conversion and
  `/`, `%` are modelled by truncating operations on `Int`);
* the API service of `transcribe/service.go` (`Transcribe`, `GetJob`,
  `processJobAsync`), modelled as pure functions over an oracle environment
  that fixes the outcomes of the probe, the pipeline, the store and the
  publisher, and producing an explicit event trace for temporal claims;
* the parts of the `models` and `lib` packages that the service calls but
  whose sources are not part of this tree (`NewJob`, the `Mark*` transitions,
  the webhook manager) are modelled from the specification and are marked as
  such in their doc comments, as are the SRT/VTT parsers used to state the
  round-trip laws.
-/

namespace Omni

/-- One decimal digit rendered as a character (48 is the code of the zero digit). -/
def digitChar (n : Nat) : Char := Char.ofNat (48 + n)

/-- Fuelled digit-string writer (structural recursion so that proofs can
evaluate it); the fuel bounds the number of digits. -/
def natToCharsAux : Nat → Nat → List Char
  | 0, n => [digitChar (n % 10)]
  | fuel + 1, n =>
    if n < 10 then [digitChar n]
    else natToCharsAux fuel (n / 10) ++ [digitChar (n % 10)]

/-- Decimal digit string of a natural number, mirroring Go integer formatting
with the `%d` verb for nonnegative values. -/
def natToChars (n : Nat) : List Char := natToCharsAux n n

/-- Numeric value of a digit character. -/
def digitVal (c : Char) : Nat := c.toNat - 48

/-- Parse a nonempty all-digit character list as a natural number. -/
def parseNat (cs : List Char) : Option Nat :=
  if cs ≠ [] ∧ cs.all Char.isDigit then
    some (cs.foldl (fun a c => a * 10 + digitVal c) 0)
  else none

/-- Zero-pad a natural's decimal digits to width `w`,
mirroring Go `%02d` / `%03d` formatting of a nonnegative value. -/
def padNat (w : Nat) (n : Nat) : List Char :=
  List.replicate (w - (natToChars n).length) '0' ++ natToChars n

/-- Go `%0wd` formatting of an `Int`: the sign precedes the zero padding. -/
def intPad (w : Nat) (i : Int) : List Char :=
  if i < 0 then '-' :: padNat (w - 1) i.natAbs else padNat w i.natAbs

/-- Go conversion `int(x)`: truncation toward zero, on the rational model. -/
def goTrunc (q : ℚ) : Int := if 0 ≤ q then ⌊q⌋ else -⌊-q⌋

/-- The character list of a formatted timestamp
`HH:MM:SS<sep>mmm`, mirroring `formatSRTTime` / `formatVTTTime` of
`web-dashboard.go` (Go `/` and `%` on int truncate toward zero, which is
`Int.tdiv` / `Int.tmod`). -/
def timeChars (sep : Char) (q : ℚ) : List Char :=
  let t : Int := goTrunc q
  let millis : Int := goTrunc ((q - (t : ℚ)) * 1000)
  intPad 2 (Int.tdiv t 3600) ++ ':' ::
    (intPad 2 (Int.tdiv (Int.tmod t 3600) 60) ++ ':' ::
      (intPad 2 (Int.tmod t 60) ++ sep :: intPad 3 millis))

/-- `formatSRTTime` of `web-dashboard.go`: `HH:MM:SS,mmm`. -/
def formatSRTTime (q : ℚ) : String := String.mk (timeChars ',' q)

/-- `formatVTTTime` of `web-dashboard.go`: `HH:MM:SS.mmm`. -/
def formatVTTTime (q : ℚ) : String := String.mk (timeChars '.' q)

/-- `TranscriptSegment` of `web-dashboard.go`; the Go field `End` is named
`stop` here because `end` is reserved in Lean. Times (`float64` in the
source) are modelled as rationals. -/
structure TranscriptSegment where
  start : ℚ
  stop : ℚ
  text : String
deriving DecidableEq, Repr

/-- The literal ` --> ` separating the two timestamps of a cue. -/
def arrowChars : List Char := [' ', '-', '-', '>', ' ']

/-- The newline character. -/
def nlChar : Char := '\n'

/-- One SRT cue block as written by the loop of `generateSRT`:
`fmt.Sprintf("%d\n%s --> %s\n%s\n\n", i+1, start, end, segment.Text)`. -/
def srtCueChars (idx : Nat) (seg : TranscriptSegment) : List Char :=
  natToChars idx ++ nlChar ::
    (timeChars ',' seg.start ++ arrowChars ++ timeChars ',' seg.stop ++ nlChar ::
      (seg.text.data ++ [nlChar, nlChar]))

/-- The cue blocks written by the `generateSRT` loop, with one-based indices
starting at `idx` (the Go loop writes `i+1` for the `i`-th segment). -/
def srtBlocks (idx : Nat) : List TranscriptSegment → List Char
  | [] => []
  | seg :: rest => srtCueChars idx seg ++ srtBlocks (idx + 1) rest

/-- Character-level body of `generateSRT` of `web-dashboard.go`: for empty
input the fallback block `"1\n00:00:00,000 --> 99:59:59,999\n%s\n"`,
otherwise one numbered cue per segment in input order. -/
def generateSRTChars (segments : List TranscriptSegment) (fallbackText : String) :
    List Char :=
  if segments = [] then
    ("1\n00:00:00,000 --> 99:59:59,999\n").data ++ fallbackText.data ++ [nlChar]
  else srtBlocks 1 segments

/-- `generateSRT` of `web-dashboard.go`. -/
def generateSRT (segments : List TranscriptSegment) (fallbackText : String) : String :=
  String.mk (generateSRTChars segments fallbackText)

/-- One VTT cue block as written by the loop of `generateVTT`:
`fmt.Sprintf("%s --> %s\n%s\n\n", start, end, segment.Text)`. -/
def vttCueChars (seg : TranscriptSegment) : List Char :=
  timeChars '.' seg.start ++ arrowChars ++ timeChars '.' seg.stop ++ nlChar ::
    (seg.text.data ++ [nlChar, nlChar])

/-- The cue blocks written by the `generateVTT` loop. -/
def vttBlocks : List TranscriptSegment → List Char
  | [] => []
  | seg :: rest => vttCueChars seg ++ vttBlocks rest

/-- Character-level body of `generateVTT` of `web-dashboard.go`: the
`WEBVTT` signature and blank line, then for empty input the fallback block
`"00:00:00.000 --> 99:59:59.999\n"` plus the fallback text and a newline,
otherwise one cue per segment in input order. -/
def generateVTTChars (segments : List TranscriptSegment) (fallbackText : String) :
    List Char :=
  ("WEBVTT\n\n").data ++
    (if segments = [] then
      ("00:00:00.000 --> 99:59:59.999\n").data ++ fallbackText.data ++ [nlChar]
    else vttBlocks segments)

/-- `generateVTT` of `web-dashboard.go`. -/
def generateVTT (segments : List TranscriptSegment) (fallbackText : String) : String :=
  String.mk (generateVTTChars segments fallbackText)

/-- Does `pat` occur at the head of the list? -/
def leadsWith : List Char → List Char → Bool
  | [], _ => true
  | _ :: _, [] => false
  | p :: ps, c :: cs => p = c && leadsWith ps cs

/-- Split a character list at the earliest occurrence of `pat`, returning the
part before it and the part after it (the occurrence itself removed);
`none` when `pat` does not occur. -/
def breakOn (pat : List Char) : List Char → Option (List Char × List Char)
  | [] => if pat = [] then some ([], []) else none
  | c :: cs =>
    if leadsWith pat (c :: cs) then some ([], (c :: cs).drop pat.length)
    else
      match breakOn pat cs with
      | some (a, b) => some (c :: a, b)
      | none => none

/-- Split a character list on every occurrence of a separator character. -/
def splitOnChar (sep : Char) : List Char → List (List Char)
  | [] => [[]]
  | c :: cs =>
    match splitOnChar sep cs with
    | [] => [[]]
    | g :: gs => if c = sep then [] :: g :: gs else (c :: g) :: gs

/-- Modelled from the spec: read back a timestamp `HH:MM:SS<sep>mmm`
(the subtitle time format of §6) as seconds. The `models`/parsing side of
the round-trip law is not part of this source tree. -/
def parseTimeChars (sep : Char) (cs : List Char) : Option ℚ :=
  match splitOnChar ':' cs with
  | [h, m, tail] =>
    match splitOnChar sep tail with
    | [s, ms] =>
      match parseNat h, parseNat m, parseNat s, parseNat ms with
      | some hN, some mN, some sN, some msN =>
        some ((hN : ℚ) * 3600 + (mN : ℚ) * 60 + (sN : ℚ) + (msN : ℚ) / 1000)
      | _, _, _, _ => none
    | _ => none
  | _ => none

/-- Modelled from the spec: read one SRT cue (index line, time line, text up
to the blank-line separator) and return it with the remaining input. -/
def parseSRTCue (cs : List Char) : Option ((Nat × ℚ × ℚ × List Char) × List Char) := do
  let (idxLine, r1) ← breakOn [nlChar] cs
  let idx ← parseNat idxLine
  let (timeLine, r2) ← breakOn [nlChar] r1
  let (startCs, endCs) ← breakOn arrowChars timeLine
  let st ← parseTimeChars ',' startCs
  let en ← parseTimeChars ',' endCs
  let (text, r3) ← breakOn [nlChar, nlChar] r2
  pure ((idx, st, en, text), r3)

/-- Modelled from the spec: read a sequence of SRT cues (fuelled recursion;
the fuel is instantiated with the input length, an upper bound on the number
of cues). -/
def parseSRTCuesF : Nat → List Char → Option (List (Nat × ℚ × ℚ × List Char))
  | _, [] => some []
  | 0, _ :: _ => none
  | fuel + 1, c :: cs => do
    let (cue, rest) ← parseSRTCue (c :: cs)
    let more ← parseSRTCuesF fuel rest
    pure (cue :: more)

/-- Modelled from the spec: parse a whole SRT file into its cue list. -/
def parseSRT (s : String) : Option (List (Nat × ℚ × ℚ × List Char)) :=
  parseSRTCuesF s.data.length s.data

/-- Modelled from the spec: read one VTT cue (time line, text up to the
blank-line separator). -/
def parseVTTCue (cs : List Char) : Option ((ℚ × ℚ × List Char) × List Char) := do
  let (timeLine, r1) ← breakOn [nlChar] cs
  let (startCs, endCs) ← breakOn arrowChars timeLine
  let st ← parseTimeChars '.' startCs
  let en ← parseTimeChars '.' endCs
  let (text, r2) ← breakOn [nlChar, nlChar] r1
  pure ((st, en, text), r2)

/-- Modelled from the spec: read a sequence of VTT cues. -/
def parseVTTCuesF : Nat → List Char → Option (List (ℚ × ℚ × List Char))
  | _, [] => some []
  | 0, _ :: _ => none
  | fuel + 1, c :: cs => do
    let (cue, rest) ← parseVTTCue (c :: cs)
    let more ← parseVTTCuesF fuel rest
    pure (cue :: more)

/-- Modelled from the spec: parse a whole VTT file (signature line, blank
line, cues) into its cue list. -/
def parseVTT (s : String) : Option (List (ℚ × ℚ × List Char)) :=
  if leadsWith ("WEBVTT\n\n").data s.data then
    parseVTTCuesF s.data.length (s.data.drop 8)
  else none

/-- A cue text is faithfully delimited by the blank-line separator when it
contains no two consecutive newlines and does not end with a newline. -/
def textOk : List Char → Bool
  | [] => true
  | [c] => c ≠ nlChar
  | c :: c' :: rest => (!(c = nlChar && c' = nlChar)) && textOk (c' :: rest)

/-- Truncation of a time to whole milliseconds. -/
def truncMs (q : ℚ) : ℚ := (⌊q * 1000⌋ : ℚ) / 1000

/-- The cue list an SRT parse is expected to recover from the writer's
output: one cue per segment in input order, consecutive indices from `i`,
times truncated to whole milliseconds, text unchanged. -/
def srtCuesFrom (i : Nat) : List TranscriptSegment → List (Nat × ℚ × ℚ × List Char)
  | [] => []
  | seg :: rest =>
    (i, truncMs seg.start, truncMs seg.stop, seg.text.data) :: srtCuesFrom (i + 1) rest

/-- The cue list a VTT parse is expected to recover. -/
def vttCuesFrom : List TranscriptSegment → List (ℚ × ℚ × List Char)
  | [] => []
  | seg :: rest => (truncMs seg.start, truncMs seg.stop, seg.text.data) :: vttCuesFrom rest

/-- Forget an SRT cue's index, recovering a segment. -/
def cueSegment (c : Nat × ℚ × ℚ × List Char) : TranscriptSegment :=
  { start := c.2.1, stop := c.2.2.1, text := String.mk c.2.2.2 }

/-- A segment with both times truncated to whole milliseconds. -/
def truncSegment (s : TranscriptSegment) : TranscriptSegment :=
  { start := truncMs s.start, stop := truncMs s.stop, text := s.text }

/-- The formatted timestamp for a nonnegative number of whole seconds `n`
and milliseconds `ms`; `timeChars` reduces to this on nonnegative input. -/
def timeN (sep : Char) (n ms : Nat) : List Char :=
  padNat 2 (n / 3600) ++ ':' ::
    (padNat 2 (n % 3600 / 60) ++ ':' :: (padNat 2 (n % 60) ++ sep :: padNat 3 ms))

/-! ## The transcription service (`transcribe/service.go`)

The service handlers are embedded as pure functions over an oracle
environment fixing the outcomes of their effectful collaborators
(URL validation, the duration probe, the pipeline, the store and the
publisher), and they return an explicit event trace for the temporal
claims. -/

/-- Job status, `models.JobStatus`. Modelled from the spec: the `models`
package source is not in this tree; §3 fixes the four states. -/
inductive JobStatus
  | queued
  | running
  | complete
  | error
deriving DecidableEq, Repr

/-- `models.Segment`: a transcribed span (times in seconds, modelled as
rationals; the Go field `End` is named `stop`). -/
structure Segment where
  start : ℚ
  stop : ℚ
  text : String
deriving DecidableEq, Repr

/-- Modelled from the spec: `models.Job` (§3); the `models` package source
is not in this tree. -/
structure Job where
  id : String
  url : String
  status : JobStatus
  createdAt : Nat
  completedAt : Option Nat
  transcript : String
  segments : List Segment
  errorMsg : String
deriving DecidableEq, Repr

/-- Modelled from the spec: `models.NewJob` creates a job in `queued` with
an opaque fresh id and a creation timestamp (§3: "created in `queued` by
the scheduler"). -/
def newJob (url : String) : Job :=
  { id := "job", url := url, status := .queued, createdAt := 0,
    completedAt := none, transcript := "", segments := [], errorMsg := "" }

/-- Modelled from the spec: `Job.MarkRunning` moves the job to `running`. -/
def markRunning (j : Job) : Job := { j with status := .running }

/-- Modelled from the spec: `Job.MarkComplete` moves the job to `complete`,
storing transcript and segments and setting the completion timestamp. -/
def markComplete (j : Job) (t : String) (segs : List Segment) : Job :=
  { j with status := .complete, transcript := t, segments := segs,
           completedAt := some (j.createdAt + 1) }

/-- Modelled from the spec: `Job.MarkError` moves the job to `error`,
storing the error message and setting the completion timestamp. -/
def markError (j : Job) (msg : String) : Job :=
  { j with status := .error, errorMsg := msg, completedAt := some (j.createdAt + 1) }

/-- `Config` of `transcribe/service.go` (lines 24–32). -/
structure Config where
  apiKey : String
  workDir : String
  maxVideoLength : Int
  freeJobLimit : Int
  webhookURL : String
  webhookSecret : String
  webhookEvents : List String
deriving DecidableEq, Repr

/-- The `encore.dev/beta/errs` codes used by the service. -/
inductive ErrCode
  | invalidArgument
  | internal
  | notFound
  | unauthenticated
deriving DecidableEq, Repr

/-- An error returned by the submit endpoint: either an `errs.Error` built
by the handler, or an error passed through from the store / publisher. -/
inductive SubmitError
  | api (code : ErrCode) (msg : String)
  | storeFailure
  | publishFailure
deriving DecidableEq, Repr

/-- Lifecycle webhook kinds. -/
inductive WebhookKind
  | started
  | completed
  | failed
deriving DecidableEq, Repr

/-- The event name strings used in `webhook_events` configuration. -/
def webhookEventName : WebhookKind → String
  | .started => "job.started"
  | .completed => "job.completed"
  | .failed => "job.failed"

/-- Observable events of a handler run, in program order: store writes,
publishes, store updates (argument: the status written), webhook emissions,
pipeline invocations and subtitle generation. -/
inductive Ev
  | storePut (status : JobStatus)
  | publish
  | storeUpdate (status : JobStatus)
  | webhook (kind : WebhookKind)
  | pipelineRun
  | subtitleGen
deriving DecidableEq, Repr

/-- A reason the duration probe (`lib.GetVideoDuration`) can fail; the
handler never inspects it. -/
inductive ProbeFailure
  | invalidSource
  | probeTimeout
  | other (msg : String)
deriving DecidableEq, Repr

/-- Oracle environment for one `Transcribe` call: outcomes of
`models.ValidateURL`, `lib.GetVideoDuration`, `lib.ProcessTranscription`,
`storeJob` and `jobTopic.Publish`. -/
structure SubmitEnv where
  validURL : Bool
  probe : Except ProbeFailure Int
  pipeline : Except String (String × List Segment)
  putOk : Bool
  publishOk : Bool

/-- `TranscribeResponse` of `transcribe/service.go`; `job_id` is an
`omitempty` field assigned only on the async path, modelled as an option. -/
structure TranscribeResponse where
  jobID : Option String
  transcript : String
  segments : List Segment
deriving DecidableEq, Repr

/-- The `Transcribe` handler of `transcribe/service.go` (lines 81–140):
validate the URL, probe the duration, run the pipeline inline when the
duration is at most 120 seconds, otherwise persist the new job and publish
it. The `cfg` parameter mirrors the package-global config; the handler
reads no field of it. -/
def transcribe (cfg : Config) (env : SubmitEnv) (url : String) :
    Except SubmitError TranscribeResponse × List Ev :=
  if env.validURL = false then
    (.error (.api .invalidArgument "Invalid YouTube URL"), [])
  else
    match env.probe with
    | .error _ => (.error (.api .invalidArgument "Failed to get video information"), [])
    | .ok duration =>
      let job := newJob url
      if duration ≤ 120 then
        match env.pipeline with
        | .error _ => (.error (.api .internal "Transcription failed"), [.pipelineRun])
        | .ok (transcript, segments) =>
          (.ok { jobID := none, transcript := transcript, segments := segments },
           [.pipelineRun])
      else
        if env.putOk = false then
          (.error .storeFailure, [.storePut job.status])
        else if env.publishOk = false then
          (.error .publishFailure, [.storePut job.status, .publish])
        else
          (.ok { jobID := some job.id, transcript := "", segments := [] },
           [.storePut job.status, .publish])

/-- `SubtitleFiles` of `transcribe/service.go`. -/
structure SubtitleFiles where
  srtURL : String
  vttURL : String
deriving DecidableEq, Repr

/-- `JobStatusResponse` of `transcribe/service.go`; `omitempty` fields are
modelled as options that are `some` exactly when the handler assigns them. -/
structure JobStatusResponse where
  id : String
  status : String
  transcript : Option String
  segments : Option (List Segment)
  errorMsg : Option String
  createdAt : Nat
  completedAt : Option Nat
  subtitleFiles : Option SubtitleFiles
deriving DecidableEq, Repr

/-- `string(job.Status)`. -/
def statusString : JobStatus → String
  | .queued => "queued"
  | .running => "running"
  | .complete => "complete"
  | .error => "error"

/-- The response construction of the `GetJob` handler
(`transcribe/service.go` lines 154–169): the base response always carries
id, status and creation time; the `complete` branch adds transcript,
segments and completion time; the `error` branch adds the error message and
completion time; no branch assigns `SubtitleFiles`. -/
def getJobResponse (job : Job) : JobStatusResponse :=
  let base : JobStatusResponse :=
    { id := job.id, status := statusString job.status, transcript := none,
      segments := none, errorMsg := none, createdAt := job.createdAt,
      completedAt := none, subtitleFiles := none }
  if job.status = .complete then
    { base with transcript := some job.transcript, segments := some job.segments,
                completedAt := job.completedAt }
  else if job.status = .error then
    { base with errorMsg := some job.errorMsg, completedAt := job.completedAt }
  else base

/-- Oracle environment for one delivery to the async worker: outcomes of the
two `updateJob` calls and of `lib.ProcessTranscription`.
(`lib.GenerateSubtitles` appears in the trace as an event; its result only
feeds the completion webhook payload and cannot affect control flow.) -/
structure WorkerEnv where
  updateRunningOk : Bool
  pipeline : Except String (String × List Segment)
  updateFinalOk : Bool

/-- Modelled from the spec: the webhook notifier delivers only events whose
kind is listed in `webhook_events`; an empty list subscribes to all (§4.F).
The `lib.WebhookManager` source is not in this tree. -/
def sendWebhook (cfg : Config) (kind : WebhookKind) : List Ev :=
  if cfg.webhookEvents = [] ∨ webhookEventName kind ∈ cfg.webhookEvents then
    [.webhook kind]
  else []

/-- An error returned by the worker handler. -/
inductive WorkerError
  | updateFailed
  | pipelineFailed (msg : String)
deriving DecidableEq, Repr

/-- The `processJobAsync` handler of `transcribe/service.go` (lines
202–274), in program order: when a webhook URL is configured, send
`job.started`; mark the job running and update the store (returning the
error on failure); run the pipeline; on pipeline failure mark and update
`error` (update error ignored) and send `job.failed`; otherwise generate
subtitles when segments are nonempty, mark and update `complete` (returning
the error on failure) and send `job.completed`. The handler never reads the
store and never inspects the delivered job's status. -/
def processJobAsync (cfg : Config) (env : WorkerEnv) (job : Job) :
    Except WorkerError Unit × List Ev :=
  let configured := cfg.webhookURL ≠ ""
  let startedEvs := if configured then sendWebhook cfg .started else []
  let job1 := markRunning job
  if env.updateRunningOk = false then
    (.error .updateFailed, startedEvs ++ [.storeUpdate job1.status])
  else
    match env.pipeline with
    | .error e =>
      let job2 := markError job1 e
      let failedEvs := if configured then sendWebhook cfg .failed else []
      (.error (.pipelineFailed e),
       startedEvs ++ [.storeUpdate job1.status, .pipelineRun, .storeUpdate job2.status]
         ++ failedEvs)
    | .ok (transcript, segments) =>
      let subtitleEvs := if segments = [] then [] else [Ev.subtitleGen]
      let job2 := markComplete job1 transcript segments
      let completedEvs := if configured then sendWebhook cfg .completed else []
      if env.updateFinalOk = false then
        (.error .updateFailed,
         startedEvs ++ [.storeUpdate job1.status, .pipelineRun] ++ subtitleEvs
           ++ [.storeUpdate job2.status])
      else
        (.ok (),
         startedEvs ++ [.storeUpdate job1.status, .pipelineRun] ++ subtitleEvs
           ++ [.storeUpdate job2.status] ++ completedEvs)

/-! ## Concrete instances used by counterexamples and witnesses -/

/-- A configuration with a webhook URL, subscribed to all events, and a
30-minute `max_video_length`. -/
def demoCfg : Config :=
  { apiKey := "k", workDir := "/work", maxVideoLength := 1800, freeJobLimit := 0,
    webhookURL := "https://hooks.example/transcripts", webhookSecret := "",
    webhookEvents := [] }

/-- Two well-formed sample segments. -/
def sampleSegments : List Segment :=
  [{ start := 0, stop := 3/2, text := "hello" }, { start := 3/2, stop := 12/5, text := "world" }]

/-- A worker environment in which every collaborator succeeds. -/
def happyWorkerEnv : WorkerEnv :=
  { updateRunningOk := true, pipeline := .ok ("hello world", sampleSegments),
    updateFinalOk := true }

/-- A job that has already reached the terminal `complete` status. -/
def completedJob : Job :=
  markComplete (markRunning (newJob "https://youtu.be/abc")) "hello world" sampleSegments

/-- A submit environment: valid URL, probe succeeds with the given duration,
pipeline and store succeed. -/
def happySubmitEnv (d : Int) : SubmitEnv :=
  { validURL := true, probe := .ok d, pipeline := .ok ("hello world", sampleSegments),
    putOk := true, publishOk := true }

/-- A submit environment whose probe fails. -/
def probeFailEnv (r : ProbeFailure) : SubmitEnv :=
  { validURL := true, probe := .error r, pipeline := .ok ("hello world", sampleSegments),
    putOk := true, publishOk := true }

/-- A submit environment whose store write fails. -/
def storeFailEnv : SubmitEnv :=
  { validURL := true, probe := .ok 600, pipeline := .ok ("hello world", sampleSegments),
    putOk := false, publishOk := true }

/-- A stored job in the `complete` state with every completion field set. -/
def completeJobRecord : Job :=
  { id := "abc", url := "https://youtu.be/abc", status := .complete, createdAt := 5,
    completedAt := some 9, transcript := "hello world", segments := sampleSegments,
    errorMsg := "" }

/-- Witness segments for the round-trip laws: in-order, millisecond-exact
and non-exact times, single-line texts. -/
def rtSegments : List TranscriptSegment :=
  [{ start := 0, stop := 3/2, text := "hello" }, { start := 1/3, stop := 12/5, text := "world" }]

/-- Witness segments for normalization-freedom: unsorted starts, a cue with
`end < start`, and an empty text. -/
def rawSegments : List TranscriptSegment :=
  [{ start := 5, stop := 2, text := "" }, { start := 1, stop := 1/3, text := "a" }]

/-! ## Decimal digit round-trip lemmas -/

theorem digitChar_isDigit {n : Nat} (h : n < 10) : (digitChar n).isDigit = true := by
  interval_cases n <;> decide

theorem digitVal_digitChar {n : Nat} (h : n < 10) : digitVal (digitChar n) = n := by
  interval_cases n <;> decide

theorem natToCharsAux_fuel (n : Nat) : ∀ f₁ f₂, n ≤ f₁ → n ≤ f₂ →
    natToCharsAux f₁ n = natToCharsAux f₂ n := by
  induction n using Nat.strong_induction_on with
  | _ n ih =>
    intro f₁ f₂ h₁ h₂
    match f₁, f₂ with
    | 0, 0 => rfl
    | 0, f₂ + 1 =>
      have hn : n = 0 := by omega
      subst hn
      simp [natToCharsAux]
    | f₁ + 1, 0 =>
      have hn : n = 0 := by omega
      subst hn
      simp [natToCharsAux]
    | f₁ + 1, f₂ + 1 =>
      by_cases h10 : n < 10
      · simp [natToCharsAux, h10]
      · have hdiv := Nat.div_lt_self (show 0 < n by omega) (show 1 < 10 by omega)
        simp only [natToCharsAux, if_neg h10]
        rw [ih (n / 10) hdiv f₁ f₂ (by omega) (by omega)]

theorem natToChars_small {n : Nat} (h : n < 10) : natToChars n = [digitChar n] := by
  cases n with
  | zero => rfl
  | succ k => simp [natToChars, natToCharsAux, h]

theorem natToChars_step {n : Nat} (h : ¬(n < 10)) :
    natToChars n = natToChars (n / 10) ++ [digitChar (n % 10)] := by
  unfold natToChars
  obtain ⟨k, rfl⟩ : ∃ k, n = k + 1 := ⟨n - 1, by omega⟩
  have hdiv := Nat.div_lt_self (show 0 < k + 1 by omega) (show 1 < 10 by omega)
  simp only [natToCharsAux, if_neg h]
  rw [natToCharsAux_fuel ((k + 1) / 10) k ((k + 1) / 10) (by omega) (Nat.le_refl _)]

theorem natToChars_all_isDigit (n : Nat) : ∀ c ∈ natToChars n, c.isDigit = true := by
  induction n using Nat.strong_induction_on with
  | _ n ih =>
    by_cases h : n < 10
    · rw [natToChars_small h]
      intro c hc
      rw [List.mem_singleton] at hc
      subst hc
      exact digitChar_isDigit h
    · rw [natToChars_step h]
      intro c hc
      rcases List.mem_append.mp hc with h1 | h1
      · exact ih (n / 10) (Nat.div_lt_self (by omega) (by omega)) c h1
      · rw [List.mem_singleton] at h1
        subst h1
        exact digitChar_isDigit (Nat.mod_lt n (by omega))

theorem natToChars_ne_nil (n : Nat) : natToChars n ≠ [] := by
  by_cases h : n < 10
  · rw [natToChars_small h]
    simp
  · rw [natToChars_step h]
    simp

theorem foldl_digits_natToChars (n : Nat) :
    (natToChars n).foldl (fun a c => a * 10 + digitVal c) 0 = n := by
  induction n using Nat.strong_induction_on with
  | _ n ih =>
    by_cases h : n < 10
    · rw [natToChars_small h]
      simp [digitVal_digitChar h]
    · rw [natToChars_step h]
      rw [List.foldl_append, ih (n / 10) (Nat.div_lt_self (by omega) (by omega))]
      simp only [List.foldl_cons, List.foldl_nil,
        digitVal_digitChar (Nat.mod_lt n (by omega))]
      omega

theorem parseNat_natToChars (n : Nat) : parseNat (natToChars n) = some n := by
  unfold parseNat
  rw [if_pos, foldl_digits_natToChars]
  exact ⟨natToChars_ne_nil n, by
    rw [List.all_eq_true]
    intro c hc
    exact natToChars_all_isDigit n c hc⟩

theorem foldl_digits_replicate_zero (k : Nat) :
    (List.replicate k '0').foldl (fun a c => a * 10 + digitVal c) 0 = 0 := by
  induction k with
  | zero => rfl
  | succ k ihk => simpa [List.replicate_succ, digitVal] using ihk

theorem parseNat_padNat (w n : Nat) : parseNat (padNat w n) = some n := by
  unfold parseNat padNat
  rw [if_pos]
  · rw [List.foldl_append, foldl_digits_replicate_zero, foldl_digits_natToChars]
  · constructor
    · intro hnil
      exact natToChars_ne_nil n (List.append_eq_nil.mp hnil).2
    · rw [List.all_eq_true]
      intro c hc
      rcases List.mem_append.mp hc with h1 | h1
      · rw [List.eq_of_mem_replicate h1]
        decide
      · exact natToChars_all_isDigit n c h1

theorem mem_padNat_isDigit {w n : Nat} {c : Char} (hc : c ∈ padNat w n) :
    c.isDigit = true := by
  rcases List.mem_append.mp hc with h1 | h1
  · rw [List.eq_of_mem_replicate h1]
    decide
  · exact natToChars_all_isDigit n c h1

theorem intPad_coe (w : Nat) (k : Nat) : intPad w (k : Int) = padNat w k := by
  unfold intPad
  rw [if_neg, Int.natAbs_ofNat]
  simp

/-! ## Timestamp formatting and parsing -/

theorem goTrunc_nonneg {q : ℚ} (h : 0 ≤ q) : goTrunc q = ⌊q⌋ := if_pos h

theorem millisTrunc_eq {q : ℚ} (h : 0 ≤ q) :
    goTrunc ((q - (⌊q⌋ : ℚ)) * 1000) = ⌊q * 1000⌋ - 1000 * ⌊q⌋ := by
  have hfl := Int.floor_le q
  have h0 : (0:ℚ) ≤ (q - (⌊q⌋ : ℚ)) * 1000 := by nlinarith
  rw [goTrunc_nonneg h0]
  have hre : (q - ((⌊q⌋ : ℤ) : ℚ)) * 1000 = q * 1000 - ((1000 * ⌊q⌋ : ℤ) : ℚ) := by
    push_cast
    ring
  rw [hre, Int.floor_sub_int]

theorem tdiv_coe (a b : Nat) : Int.tdiv (a : ℤ) (b : ℤ) = ((a / b : Nat) : ℤ) := rfl

theorem tmod_coe (a b : Nat) : Int.tmod (a : ℤ) (b : ℤ) = ((a % b : Nat) : ℤ) := rfl

theorem timeChars_eq_timeN (sep : Char) {q : ℚ} {n ms : Nat}
    (h : 0 ≤ q) (hn : ⌊q⌋ = (n : ℤ)) (hms : ⌊q * 1000⌋ - 1000 * ⌊q⌋ = (ms : ℤ)) :
    timeChars sep q = timeN sep n ms := by
  simp only [timeChars, timeN]
  rw [goTrunc_nonneg h, millisTrunc_eq h, hms, hn]
  rw [show ((3600:ℤ)) = ((3600:ℕ):ℤ) from rfl, show ((60:ℤ)) = ((60:ℕ):ℤ) from rfl]
  rw [tmod_coe, tdiv_coe, tdiv_coe, tmod_coe]
  rw [intPad_coe, intPad_coe, intPad_coe, intPad_coe]

theorem splitOnChar_ne_nil (sep : Char) (l : List Char) : splitOnChar sep l ≠ [] := by
  cases l with
  | nil => simp [splitOnChar]
  | cons c cs =>
    rw [splitOnChar]
    cases splitOnChar sep cs with
    | nil => simp
    | cons g gs =>
      dsimp only
      split <;> simp

theorem splitOnChar_sepFree {sep : Char} {xs : List Char} (h : sep ∉ xs) :
    splitOnChar sep xs = [xs] := by
  induction xs with
  | nil => rfl
  | cons c cs ih =>
    rw [splitOnChar, ih (fun hm => h (List.mem_cons_of_mem c hm))]
    dsimp only
    rw [if_neg (fun hc => h (by rw [← hc]; exact List.mem_cons_self c cs))]

theorem splitOnChar_append {sep : Char} {xs ys : List Char} (h : sep ∉ xs) :
    splitOnChar sep (xs ++ sep :: ys) = xs :: splitOnChar sep ys := by
  induction xs with
  | nil =>
    obtain ⟨g, gs, hgs⟩ := List.exists_cons_of_ne_nil (splitOnChar_ne_nil sep ys)
    rw [List.nil_append, splitOnChar, hgs]
    dsimp only
    rw [if_pos rfl, ← hgs]
  | cons c cs ih =>
    have htail := ih (fun hm => h (List.mem_cons_of_mem c hm))
    rw [List.cons_append, splitOnChar, htail]
    dsimp only
    rw [if_neg (fun hc => h (by rw [← hc]; exact List.mem_cons_self c cs))]

theorem leadsWith_refl (p ys : List Char) : leadsWith p (p ++ ys) = true := by
  induction p with
  | nil => rfl
  | cons c cs ih => simp [leadsWith, ih]

theorem breakOn_self (pat ys : List Char) (hp : pat ≠ []) :
    breakOn pat (pat ++ ys) = some ([], ys) := by
  cases pat with
  | nil => cases hp rfl
  | cons p ps =>
    rw [List.cons_append, breakOn,
      if_pos (show leadsWith (p :: ps) (p :: (ps ++ ys)) = true from leadsWith_refl (p :: ps) ys)]
    rw [show p :: (ps ++ ys) = (p :: ps) ++ ys from rfl, List.drop_left]

theorem breakOn_headFree {p : Char} {ps xs ys : List Char} (h : p ∉ xs) :
    breakOn (p :: ps) (xs ++ (p :: ps) ++ ys) = some (xs, ys) := by
  induction xs with
  | nil => simpa using breakOn_self (p :: ps) ys (by simp)
  | cons x xs' ih =>
    have hx : ¬(p = x) := fun he => h (he ▸ List.mem_cons_self x xs')
    have htail := ih (fun hm => h (List.mem_cons_of_mem x hm))
    rw [List.append_assoc, List.cons_append, breakOn, if_neg (by simp [leadsWith, hx])]
    rw [← List.append_assoc, htail]

theorem breakOn_textOk {t ys : List Char} (h : textOk t = true) :
    breakOn [nlChar, nlChar] (t ++ nlChar :: nlChar :: ys) = some (t, ys) := by
  induction t with
  | nil => simpa using breakOn_self [nlChar, nlChar] ys (by simp)
  | cons c t' ih =>
    cases t' with
    | nil =>
      have hc : ¬(nlChar = c) := by
        intro he
        rw [textOk] at h
        simp [← he] at h
      rw [List.cons_append, List.nil_append, breakOn, if_neg (by simp [leadsWith, hc])]
      rw [show nlChar :: nlChar :: ys = [nlChar, nlChar] ++ ys from rfl]
      rw [breakOn_self [nlChar, nlChar] ys (by simp)]
    | cons c' t'' =>
      rw [textOk] at h
      rw [Bool.and_eq_true] at h
      obtain ⟨h1, h2⟩ := h
      have hcc : ¬(nlChar = c ∧ nlChar = c') := by
        intro ⟨ha, hb⟩
        simp [← ha, ← hb] at h1
      have hor : ¬(nlChar = c) ∨ ¬(nlChar = c') := by
        by_cases hb : nlChar = c
        · exact Or.inr (fun hb' => hcc ⟨hb, hb'⟩)
        · exact Or.inl hb
      have hlw : leadsWith [nlChar, nlChar] (c :: c' :: (t'' ++ nlChar :: nlChar :: ys)) = false := by
        rcases hor with hb | hb <;> simp [leadsWith, hb]
      rw [List.cons_append, breakOn, if_neg (by simp [hlw]), ih h2]

theorem parseTime_timeN {sep : Char} (hd : sep.isDigit = false) (hne : ¬(sep = ':'))
    (n ms : Nat) :
    parseTimeChars sep (timeN sep n ms) = some ((n : ℚ) + (ms : ℚ) / 1000) := by
  have hpad : ∀ w k : Nat, ':' ∉ padNat w k := by
    intro w k hm
    have := mem_padNat_isDigit hm
    simp at this
  have hpadSep : ∀ w k : Nat, sep ∉ padNat w k := by
    intro w k hm
    rw [mem_padNat_isDigit hm] at hd
    cases hd
  have htail : ':' ∉ padNat 2 (n % 60) ++ sep :: padNat 3 ms := by
    intro hm
    rcases List.mem_append.mp hm with h1 | h1
    · exact hpad _ _ h1
    · rcases List.mem_cons.mp h1 with h2 | h2
      · exact hne h2.symm
      · exact hpad _ _ h2
  unfold parseTimeChars timeN
  rw [splitOnChar_append (hpad 2 (n / 3600)), splitOnChar_append (hpad 2 (n % 3600 / 60)),
    splitOnChar_sepFree htail]
  dsimp only
  rw [splitOnChar_append (hpadSep 2 (n % 60)), splitOnChar_sepFree (hpadSep 3 ms)]
  dsimp only
  rw [parseNat_padNat, parseNat_padNat, parseNat_padNat, parseNat_padNat]
  dsimp only
  congr 1
  have hnat : n / 3600 * 3600 + n % 3600 / 60 * 60 + n % 60 = n := by omega
  have h2 : (((n / 3600 * 3600 + n % 3600 / 60 * 60 + n % 60 : ℕ)) : ℚ) = (n : ℚ) := by
    rw [hnat]
  push_cast at h2
  linarith [h2]

theorem parseTime_timeChars {sep : Char} (hd : sep.isDigit = false) (hne : ¬(sep = ':'))
    {q : ℚ} (h : 0 ≤ q) :
    parseTimeChars sep (timeChars sep q) = some (truncMs q) := by
  have hfl : (0:ℤ) ≤ ⌊q⌋ := Int.floor_nonneg.mpr h
  have hmsnn : (0:ℤ) ≤ ⌊q * 1000⌋ - 1000 * ⌊q⌋ := by
    have hq := Int.floor_le q
    have h1 : ((1000 * ⌊q⌋ : ℤ) : ℚ) ≤ q * 1000 := by
      push_cast
      nlinarith
    have h2 := Int.le_floor.mpr h1
    omega
  obtain ⟨a, ha⟩ : ∃ a : ℕ, ⌊q⌋ = (a : ℤ) := ⟨_, (Int.toNat_of_nonneg hfl).symm⟩
  obtain ⟨b, hb⟩ : ∃ b : ℕ, ⌊q * 1000⌋ - 1000 * ⌊q⌋ = (b : ℤ) :=
    ⟨_, (Int.toNat_of_nonneg hmsnn).symm⟩
  rw [timeChars_eq_timeN sep h ha hb, parseTime_timeN hd hne]
  congr 1
  unfold truncMs
  have hfloor : ⌊q * 1000⌋ = 1000 * (a : ℤ) + b := by omega
  rw [hfloor]
  push_cast
  ring

theorem mem_intPad {w : Nat} {i : Int} {c : Char} (hc : c ∈ intPad w i) :
    c = '-' ∨ c.isDigit = true := by
  unfold intPad at hc
  split at hc
  · rcases List.mem_cons.mp hc with h1 | h1
    · exact Or.inl h1
    · exact Or.inr (mem_padNat_isDigit h1)
  · exact Or.inr (mem_padNat_isDigit hc)

theorem mem_timeChars {sep : Char} {q : ℚ} {c : Char} (hc : c ∈ timeChars sep q) :
    c = ':' ∨ c = sep ∨ c = '-' ∨ c.isDigit = true := by
  simp only [timeChars] at hc
  rcases List.mem_append.mp hc with h1 | h1
  · rcases mem_intPad h1 with h | h
    · exact Or.inr (Or.inr (Or.inl h))
    · exact Or.inr (Or.inr (Or.inr h))
  rcases List.mem_cons.mp h1 with h2 | h2
  · exact Or.inl h2
  rcases List.mem_append.mp h2 with h3 | h3
  · rcases mem_intPad h3 with h | h
    · exact Or.inr (Or.inr (Or.inl h))
    · exact Or.inr (Or.inr (Or.inr h))
  rcases List.mem_cons.mp h3 with h4 | h4
  · exact Or.inl h4
  rcases List.mem_append.mp h4 with h5 | h5
  · rcases mem_intPad h5 with h | h
    · exact Or.inr (Or.inr (Or.inl h))
    · exact Or.inr (Or.inr (Or.inr h))
  rcases List.mem_cons.mp h5 with h6 | h6
  · exact Or.inr (Or.inl h6)
  rcases mem_intPad h6 with h | h
  · exact Or.inr (Or.inr (Or.inl h))
  · exact Or.inr (Or.inr (Or.inr h))

theorem nl_not_mem_timeChars {sep : Char} (hsep : ¬(sep = nlChar)) (q : ℚ) :
    nlChar ∉ timeChars sep q := by
  intro hm
  rcases mem_timeChars hm with h | h | h | h
  · exact absurd h (by decide)
  · exact hsep h.symm
  · exact absurd h (by decide)
  · exact absurd h (by decide)

theorem space_not_mem_timeChars {sep : Char} (hsep : ¬(sep = ' ')) (q : ℚ) :
    ' ' ∉ timeChars sep q := by
  intro hm
  rcases mem_timeChars hm with h | h | h | h
  · exact absurd h (by decide)
  · exact hsep h.symm
  · exact absurd h (by decide)
  · exact absurd h (by decide)

theorem nl_not_mem_natToChars (n : Nat) : nlChar ∉ natToChars n := by
  intro hm
  have := natToChars_all_isDigit n nlChar hm
  exact absurd this (by decide)

theorem breakOn_nl {xs ys : List Char} (h : nlChar ∉ xs) :
    breakOn [nlChar] (xs ++ nlChar :: ys) = some (xs, ys) := by
  rw [show xs ++ nlChar :: ys = xs ++ [nlChar] ++ ys by simp]
  exact breakOn_headFree h

theorem breakOn_arrow {xs ys : List Char} (h : ' ' ∉ xs) :
    breakOn arrowChars (xs ++ arrowChars ++ ys) = some (xs, ys) :=
  breakOn_headFree h

theorem parseSRTCue_block (i : Nat) (seg : TranscriptSegment) (rest : List Char)
    (h1 : 0 ≤ seg.start) (h2 : 0 ≤ seg.stop) (hok : textOk seg.text.data = true) :
    parseSRTCue (srtCueChars i seg ++ rest)
      = some ((i, truncMs seg.start, truncMs seg.stop, seg.text.data), rest) := by
  unfold parseSRTCue srtCueChars
  rw [show (natToChars i ++ nlChar ::
        (timeChars ',' seg.start ++ arrowChars ++ timeChars ',' seg.stop ++ nlChar ::
          (seg.text.data ++ [nlChar, nlChar]))) ++ rest
      = natToChars i ++ nlChar ::
        ((timeChars ',' seg.start ++ arrowChars ++ timeChars ',' seg.stop) ++ nlChar ::
          (seg.text.data ++ nlChar :: nlChar :: rest)) by simp]
  rw [breakOn_nl (nl_not_mem_natToChars i)]
  simp only [Option.bind_eq_bind, Option.some_bind']
  rw [parseNat_natToChars i]
  simp only [Option.bind_eq_bind, Option.some_bind']
  have hnotl : nlChar ∉ timeChars ',' seg.start ++ arrowChars ++ timeChars ',' seg.stop := by
    intro hm
    rcases List.mem_append.mp hm with hm1 | hm1
    · rcases List.mem_append.mp hm1 with hm2 | hm2
      · exact nl_not_mem_timeChars (by decide) seg.start hm2
      · revert hm2
        decide
    · exact nl_not_mem_timeChars (by decide) seg.stop hm1
  rw [breakOn_nl hnotl]
  simp only [Option.bind_eq_bind, Option.some_bind']
  rw [breakOn_arrow (space_not_mem_timeChars (by decide) seg.start)]
  simp only [Option.bind_eq_bind, Option.some_bind']
  rw [parseTime_timeChars (by decide) (by decide) h1]
  simp only [Option.bind_eq_bind, Option.some_bind']
  rw [parseTime_timeChars (by decide) (by decide) h2]
  simp only [Option.bind_eq_bind, Option.some_bind']
  rw [breakOn_textOk hok]
  simp only [Option.bind_eq_bind, Option.some_bind']
  rfl

/-! ## Whole-file round trips -/

theorem srtCueChars_ne_nil (i : Nat) (seg : TranscriptSegment) : srtCueChars i seg ≠ [] := by
  unfold srtCueChars
  intro h
  exact natToChars_ne_nil i (List.append_eq_nil.mp h).1

theorem length_srtBlocks_ge (i : Nat) (segs : List TranscriptSegment) :
    segs.length ≤ (srtBlocks i segs).length := by
  induction segs generalizing i with
  | nil => simp [srtBlocks]
  | cons seg rest ih =>
    rw [srtBlocks, List.length_append]
    have h1 : 1 ≤ (srtCueChars i seg).length :=
      List.length_pos.mpr (srtCueChars_ne_nil i seg)
    have h2 := ih (i + 1)
    rw [List.length_cons]
    omega

theorem parseSRTCuesF_pos (fuel : Nat) (cs : List Char) (h : cs ≠ []) :
    parseSRTCuesF (fuel + 1) cs = (do
      let (cue, rest) ← parseSRTCue cs
      let more ← parseSRTCuesF fuel rest
      pure (cue :: more)) := by
  obtain ⟨c, cs', rfl⟩ := List.exists_cons_of_ne_nil h
  rfl

theorem parseSRTCuesF_blocks (segs : List TranscriptSegment) (i fuel : Nat)
    (hfuel : segs.length ≤ fuel)
    (hgood : ∀ s ∈ segs, 0 ≤ s.start ∧ 0 ≤ s.stop ∧ textOk s.text.data = true) :
    parseSRTCuesF fuel (srtBlocks i segs) = some (srtCuesFrom i segs) := by
  induction segs generalizing i fuel with
  | nil => cases fuel <;> rfl
  | cons seg rest ih =>
    obtain ⟨hs1, hs2, hs3⟩ := hgood seg (List.mem_cons_self seg rest)
    cases fuel with
    | zero => simp at hfuel
    | succ f =>
      rw [srtBlocks]
      rw [parseSRTCuesF_pos f _
        (fun hc => srtCueChars_ne_nil i seg (List.append_eq_nil.mp hc).1)]
      rw [parseSRTCue_block i seg _ hs1 hs2 hs3]
      simp only [Option.bind_eq_bind, Option.some_bind']
      rw [ih (i + 1) f (by simpa using Nat.lt_succ_iff.mp (Nat.lt_of_lt_of_le
        (Nat.lt_succ_of_le (Nat.le_refl _)) hfuel))
        (fun s hs => hgood s (List.mem_cons_of_mem seg hs))]
      rfl

theorem parseSRT_generateSRT (segs : List TranscriptSegment) (fb : String)
    (hne : ¬(segs = []))
    (hgood : ∀ s ∈ segs, 0 ≤ s.start ∧ 0 ≤ s.stop ∧ textOk s.text.data = true) :
    parseSRT (generateSRT segs fb) = some (srtCuesFrom 1 segs) := by
  unfold parseSRT generateSRT
  rw [show (String.mk (generateSRTChars segs fb)).data = generateSRTChars segs fb from rfl]
  unfold generateSRTChars
  rw [if_neg hne]
  exact parseSRTCuesF_blocks segs 1 _ (length_srtBlocks_ge 1 segs) hgood

theorem parseVTTCue_block (seg : TranscriptSegment) (rest : List Char)
    (h1 : 0 ≤ seg.start) (h2 : 0 ≤ seg.stop) (hok : textOk seg.text.data = true) :
    parseVTTCue (vttCueChars seg ++ rest)
      = some ((truncMs seg.start, truncMs seg.stop, seg.text.data), rest) := by
  unfold parseVTTCue vttCueChars
  rw [show (timeChars '.' seg.start ++ arrowChars ++ timeChars '.' seg.stop ++ nlChar ::
        (seg.text.data ++ [nlChar, nlChar])) ++ rest
      = (timeChars '.' seg.start ++ arrowChars ++ timeChars '.' seg.stop) ++ nlChar ::
        (seg.text.data ++ nlChar :: nlChar :: rest) by simp]
  have hnotl : nlChar ∉ timeChars '.' seg.start ++ arrowChars ++ timeChars '.' seg.stop := by
    intro hm
    rcases List.mem_append.mp hm with hm1 | hm1
    · rcases List.mem_append.mp hm1 with hm2 | hm2
      · exact nl_not_mem_timeChars (by decide) seg.start hm2
      · revert hm2
        decide
    · exact nl_not_mem_timeChars (by decide) seg.stop hm1
  rw [breakOn_nl hnotl]
  simp only [Option.bind_eq_bind, Option.some_bind']
  rw [breakOn_arrow (space_not_mem_timeChars (by decide) seg.start)]
  simp only [Option.bind_eq_bind, Option.some_bind']
  rw [parseTime_timeChars (by decide) (by decide) h1]
  simp only [Option.bind_eq_bind, Option.some_bind']
  rw [parseTime_timeChars (by decide) (by decide) h2]
  simp only [Option.bind_eq_bind, Option.some_bind']
  rw [breakOn_textOk hok]
  simp only [Option.bind_eq_bind, Option.some_bind']
  rfl

theorem vttCueChars_ne_nil (seg : TranscriptSegment) : vttCueChars seg ≠ [] := by
  unfold vttCueChars
  intro h
  cases (List.append_eq_nil.mp h).2

theorem length_vttBlocks_ge (segs : List TranscriptSegment) :
    segs.length ≤ (vttBlocks segs).length := by
  induction segs with
  | nil => simp [vttBlocks]
  | cons seg rest ih =>
    rw [vttBlocks, List.length_append]
    have h1 : 1 ≤ (vttCueChars seg).length :=
      List.length_pos.mpr (vttCueChars_ne_nil seg)
    rw [List.length_cons]
    omega

theorem parseVTTCuesF_pos (fuel : Nat) (cs : List Char) (h : cs ≠ []) :
    parseVTTCuesF (fuel + 1) cs = (do
      let (cue, rest) ← parseVTTCue cs
      let more ← parseVTTCuesF fuel rest
      pure (cue :: more)) := by
  obtain ⟨c, cs', rfl⟩ := List.exists_cons_of_ne_nil h
  rfl

theorem parseVTTCuesF_blocks (segs : List TranscriptSegment) (fuel : Nat)
    (hfuel : segs.length ≤ fuel)
    (hgood : ∀ s ∈ segs, 0 ≤ s.start ∧ 0 ≤ s.stop ∧ textOk s.text.data = true) :
    parseVTTCuesF fuel (vttBlocks segs) = some (vttCuesFrom segs) := by
  induction segs generalizing fuel with
  | nil => cases fuel <;> rfl
  | cons seg rest ih =>
    obtain ⟨hs1, hs2, hs3⟩ := hgood seg (List.mem_cons_self seg rest)
    cases fuel with
    | zero => simp at hfuel
    | succ f =>
      rw [vttBlocks]
      rw [parseVTTCuesF_pos f _
        (fun hc => vttCueChars_ne_nil seg (List.append_eq_nil.mp hc).1)]
      rw [parseVTTCue_block seg _ hs1 hs2 hs3]
      simp only [Option.bind_eq_bind, Option.some_bind']
      rw [ih f (by simp only [List.length_cons] at hfuel; omega)
        (fun s hs => hgood s (List.mem_cons_of_mem seg hs))]
      rfl

theorem parseVTT_generateVTT (segs : List TranscriptSegment) (fb : String)
    (hne : ¬(segs = []))
    (hgood : ∀ s ∈ segs, 0 ≤ s.start ∧ 0 ≤ s.stop ∧ textOk s.text.data = true) :
    parseVTT (generateVTT segs fb) = some (vttCuesFrom segs) := by
  unfold parseVTT generateVTT
  rw [show (String.mk (generateVTTChars segs fb)).data = generateVTTChars segs fb from rfl]
  unfold generateVTTChars
  rw [if_neg hne]
  rw [if_pos (leadsWith_refl (("WEBVTT\n\n").data) (vttBlocks segs))]
  rw [show (("WEBVTT\n\n").data ++ vttBlocks segs).drop 8 = vttBlocks segs from by
    rw [show (8 : Nat) = (("WEBVTT\n\n").data).length from rfl, List.drop_left]]
  have hlen : segs.length ≤ (("WEBVTT\n\n").data ++ vttBlocks segs).length := by
    rw [List.length_append]
    have := length_vttBlocks_ge segs
    omega
  exact parseVTTCuesF_blocks segs _ hlen hgood

theorem srtCuesFrom_map_cueSegment (i : Nat) (segs : List TranscriptSegment) :
    (srtCuesFrom i segs).map cueSegment = segs.map truncSegment := by
  induction segs generalizing i with
  | nil => rfl
  | cons seg rest ih => simp [srtCuesFrom, cueSegment, truncSegment, ih]

theorem srtCuesFrom_map_idx (i : Nat) (segs : List TranscriptSegment) :
    (srtCuesFrom i segs).map (fun c => c.1) = List.range' i segs.length := by
  induction segs generalizing i with
  | nil => rfl
  | cons seg rest ih => simp [srtCuesFrom, List.range'_succ, ih]

theorem srtCuesFrom_map_text (i : Nat) (segs : List TranscriptSegment) :
    (srtCuesFrom i segs).map (fun c => c.2.2.2) = segs.map (fun s => s.text.data) := by
  induction segs generalizing i with
  | nil => rfl
  | cons seg rest ih => simp [srtCuesFrom, ih]

theorem srtCuesFrom_map_times (i : Nat) (segs : List TranscriptSegment) :
    (srtCuesFrom i segs).map (fun c => (c.2.1, c.2.2.1))
      = segs.map (fun s => (truncMs s.start, truncMs s.stop)) := by
  induction segs generalizing i with
  | nil => rfl
  | cons seg rest ih => simp [srtCuesFrom, ih]

theorem vttCuesFrom_map_text (segs : List TranscriptSegment) :
    (vttCuesFrom segs).map (fun c => c.2.2) = segs.map (fun s => s.text.data) := by
  induction segs with
  | nil => rfl
  | cons seg rest ih => simp [vttCuesFrom, ih]

theorem vttCuesFrom_map_times (segs : List TranscriptSegment) :
    (vttCuesFrom segs).map (fun c => (c.1, c.2.1))
      = segs.map (fun s => (truncMs s.start, truncMs s.stop)) := by
  induction segs with
  | nil => rfl
  | cons seg rest ih => simp [vttCuesFrom, ih]

theorem truncMs_bounds (q : ℚ) : truncMs q ≤ q ∧ q - truncMs q < 1/1000 := by
  unfold truncMs
  have h1 := Int.floor_le (q * 1000)
  have h2 := Int.lt_floor_add_one (q * 1000)
  constructor <;> [linarith; linarith]

/-! ## Claims

Concrete counterexamples and witnesses are evaluated by kernel reduction;
the arithmetic of `Rat` is sealed behind `irreducible` by default, so it is
made semireducible locally for this section. -/

section

attribute [local semireducible] Rat.mul Rat.add Rat.sub Rat.inv Rat.ofScientific

/-- C5 (counterexample): with empty segments and an empty fallback text the
SRT writer still emits the degenerate cue (the output is not the claimed
empty SRT file), and the VTT writer emits the degenerate cue after the
signature (the output is not only the signature line). -/
theorem c5_counterexample :
    ¬(generateSRT [] "" = "") ∧
    ¬(generateVTT [] "" = "WEBVTT\n") ∧ ¬(generateVTT [] "" = "WEBVTT\n\n") := by
  refine ⟨?_, ?_, ?_⟩ <;> decide

/-- C5 (amended): for an empty segment sequence both writers emit the
degenerate cue `[0, 99:59:59.999]` unconditionally, containing the fallback
text when one is given and an empty text line otherwise; the SRT output is
the cue alone and the VTT output is the signature line, a blank line and the
cue. -/
theorem c5_empty_segments (fb : String) :
    generateSRT [] fb = "1\n00:00:00,000 --> 99:59:59,999\n" ++ fb ++ "\n" ∧
    generateVTT [] fb = "WEBVTT\n\n" ++ "00:00:00.000 --> 99:59:59.999\n" ++ fb ++ "\n" := by
  constructor
  · rw [generateSRT, generateSRTChars, if_pos rfl,
      show ("1\n00:00:00,000 --> 99:59:59,999\n").data ++ fb.data ++ [nlChar]
        = ("1\n00:00:00,000 --> 99:59:59,999\n" ++ fb ++ "\n").data from by
          simp [String.data_append, nlChar]]
  · rw [generateVTT, generateVTTChars, if_pos rfl,
      show ("WEBVTT\n\n").data ++ (("00:00:00.000 --> 99:59:59.999\n").data ++ fb.data ++ [nlChar])
        = ("WEBVTT\n\n" ++ "00:00:00.000 --> 99:59:59.999\n" ++ fb ++ "\n").data from by
          simp [String.data_append, nlChar]]

/-- C8 (counterexample): the round-trip law fails as stated for arbitrary
sequences — a text containing a blank line, a negative start time, or the
empty sequence each produce SRT output from which no parse recovers the
input. -/
theorem c8_counterexample :
    ¬((parseSRT (generateSRT [{ start := 0, stop := 1, text := "a\n\nb" }] "")).map
        (List.map cueSegment) = some [{ start := 0, stop := 1, text := "a\n\nb" }]) ∧
    ¬((parseSRT (generateSRT [{ start := -3/2, stop := 1, text := "a" }] "")).map
        (List.map cueSegment) = some [{ start := -3/2, stop := 1, text := "a" }]) ∧
    ¬(parseSRT (generateSRT [] "") = some []) := by
  refine ⟨?_, ?_, ?_⟩ <;> decide

/-- C8 (amended): for every nonempty segment sequence with nonnegative times
whose texts contain no two consecutive newlines and do not end in a newline,
parsing the SRT output recovers exactly the input sequence with each time
truncated to whole milliseconds — in particular each recovered time is
within 1/1000 s of the original. -/
theorem c8_srt_round_trip (segs : List TranscriptSegment) (fb : String)
    (hne : ¬(segs = []))
    (hgood : ∀ s ∈ segs, 0 ≤ s.start ∧ 0 ≤ s.stop ∧ textOk s.text.data = true) :
    (parseSRT (generateSRT segs fb)).map (List.map cueSegment)
        = some (segs.map truncSegment) ∧
    ∀ s ∈ segs, truncMs s.start ≤ s.start ∧ s.start - truncMs s.start < 1/1000 ∧
      truncMs s.stop ≤ s.stop ∧ s.stop - truncMs s.stop < 1/1000 := by
  constructor
  · rw [parseSRT_generateSRT segs fb hne hgood]
    rw [Option.map_some']
    rw [srtCuesFrom_map_cueSegment 1 segs]
  · intro s _
    obtain ⟨ha, hb⟩ := truncMs_bounds s.start
    obtain ⟨hc, hd⟩ := truncMs_bounds s.stop
    exact ⟨ha, hb, hc, hd⟩

/-- C8 (witness): the round trip at two concrete segments, one with
millisecond-exact times and one with time 1/3 s. -/
theorem c8_witness :
    (parseSRT (generateSRT rtSegments "")).map (List.map cueSegment)
        = some (rtSegments.map truncSegment) ∧
    ∀ s ∈ rtSegments, truncMs s.start ≤ s.start ∧ s.start - truncMs s.start < 1/1000 ∧
      truncMs s.stop ≤ s.stop ∧ s.stop - truncMs s.stop < 1/1000 :=
  c8_srt_round_trip rtSegments "" (by decide) (by decide)

/-- C10: for every nonempty well-formed segment sequence, the SRT and VTT
writers emit exactly one cue per segment in the input order: the SRT parse
recovers consecutive one-based indices, the texts in input order (empty
texts included) and the two times of each segment in their original roles
(no sorting, no discarding, no swapping); likewise for VTT without
indices. -/
theorem c10_one_cue_per_segment (segs : List TranscriptSegment) (fb : String)
    (hne : ¬(segs = []))
    (hgood : ∀ s ∈ segs, 0 ≤ s.start ∧ 0 ≤ s.stop ∧ textOk s.text.data = true) :
    parseSRT (generateSRT segs fb) = some (srtCuesFrom 1 segs) ∧
    (srtCuesFrom 1 segs).length = segs.length ∧
    (srtCuesFrom 1 segs).map (fun c => c.1) = List.range' 1 segs.length ∧
    (srtCuesFrom 1 segs).map (fun c => c.2.2.2) = segs.map (fun s => s.text.data) ∧
    (srtCuesFrom 1 segs).map (fun c => (c.2.1, c.2.2.1))
        = segs.map (fun s => (truncMs s.start, truncMs s.stop)) ∧
    parseVTT (generateVTT segs fb) = some (vttCuesFrom segs) ∧
    (vttCuesFrom segs).map (fun c => c.2.2) = segs.map (fun s => s.text.data) ∧
    (vttCuesFrom segs).map (fun c => (c.1, c.2.1))
        = segs.map (fun s => (truncMs s.start, truncMs s.stop)) := by
  refine ⟨parseSRT_generateSRT segs fb hne hgood, ?_, srtCuesFrom_map_idx 1 segs,
    srtCuesFrom_map_text 1 segs, srtCuesFrom_map_times 1 segs,
    parseVTT_generateVTT segs fb hne hgood, vttCuesFrom_map_text segs,
    vttCuesFrom_map_times segs⟩
  have h := congrArg List.length (srtCuesFrom_map_text 1 segs)
  simpa using h

/-- C10 (witness): the writers applied to unsorted segments with a
reversed time range and an empty text — everything is preserved verbatim. -/
theorem c10_witness :
    parseSRT (generateSRT rawSegments "") = some (srtCuesFrom 1 rawSegments) ∧
    (srtCuesFrom 1 rawSegments).length = rawSegments.length ∧
    (srtCuesFrom 1 rawSegments).map (fun c => c.1) = List.range' 1 rawSegments.length ∧
    (srtCuesFrom 1 rawSegments).map (fun c => c.2.2.2)
        = rawSegments.map (fun s => s.text.data) ∧
    (srtCuesFrom 1 rawSegments).map (fun c => (c.2.1, c.2.2.1))
        = rawSegments.map (fun s => (truncMs s.start, truncMs s.stop)) ∧
    parseVTT (generateVTT rawSegments "") = some (vttCuesFrom rawSegments) ∧
    (vttCuesFrom rawSegments).map (fun c => c.2.2)
        = rawSegments.map (fun s => s.text.data) ∧
    (vttCuesFrom rawSegments).map (fun c => (c.1, c.2.1))
        = rawSegments.map (fun s => (truncMs s.start, truncMs s.stop)) :=
  c10_one_cue_per_segment rawSegments "" (by decide) (by decide)

/-- C9: whenever the duration probe fails — for any failure reason — the
submit handler returns the single error `InvalidArgument` with message
"Failed to get video information" (never a probe-specific or internal
error), and no store, publish or pipeline action happens. -/
theorem c9_probe_failure (cfg : Config) (env : SubmitEnv) (url : String)
    (r : ProbeFailure) (hv : env.validURL = true) (hr : env.probe = .error r) :
    (transcribe cfg env url).1
        = .error (.api .invalidArgument "Failed to get video information") ∧
    (transcribe cfg env url).2 = [] := by
  unfold transcribe
  rw [hv, hr]
  exact ⟨rfl, rfl⟩

/-- C9 (witness): an unresolvable source and a probe timeout produce the
same `InvalidArgument` response and an empty action trace. -/
theorem c9_witness :
    (transcribe demoCfg (probeFailEnv .invalidSource) "https://youtu.be/x").1
        = .error (.api .invalidArgument "Failed to get video information") ∧
    (transcribe demoCfg (probeFailEnv .invalidSource) "https://youtu.be/x").2 = [] ∧
    (transcribe demoCfg (probeFailEnv .probeTimeout) "https://youtu.be/x").1
        = .error (.api .invalidArgument "Failed to get video information") := by
  obtain ⟨h1, h2⟩ := c9_probe_failure demoCfg (probeFailEnv .invalidSource)
    "https://youtu.be/x" .invalidSource rfl rfl
  obtain ⟨h3, _⟩ := c9_probe_failure demoCfg (probeFailEnv .probeTimeout)
    "https://youtu.be/x" .probeTimeout rfl rfl
  exact ⟨h1, h2, h3⟩

/-- C6: for every submission whose probed duration is at most 120 seconds
(the boundary included), the handler performs no store put and no publish —
no job record is ever persisted — and on pipeline success the response
carries the transcript and segments with no job id. -/
theorem c6_sync_path (cfg : Config) (env : SubmitEnv) (url : String) (d : Int)
    (hv : env.validURL = true) (hp : env.probe = .ok d) (hd : d ≤ 120) :
    (∀ s, Ev.storePut s ∉ (transcribe cfg env url).2) ∧
    Ev.publish ∉ (transcribe cfg env url).2 ∧
    (∀ t segs, env.pipeline = .ok (t, segs) →
      (transcribe cfg env url).1
        = .ok { jobID := none, transcript := t, segments := segs }) := by
  have htr : (transcribe cfg env url).2 = [Ev.pipelineRun] := by
    rcases hpl : env.pipeline with e | ⟨t0, sg0⟩ <;>
      simp [transcribe, hv, hp, hpl, hd]
  refine ⟨?_, ?_, ?_⟩
  · intro s
    rw [htr]
    simp
  · rw [htr]
    simp
  · intro t segs hpl
    simp [transcribe, hv, hp, hpl, hd]

/-- C6 (witness): a probed duration exactly equal to the 120-second
threshold is handled synchronously with no persistence. -/
theorem c6_witness :
    (∀ s, Ev.storePut s ∉ (transcribe demoCfg (happySubmitEnv 120) "https://youtu.be/x").2) ∧
    Ev.publish ∉ (transcribe demoCfg (happySubmitEnv 120) "https://youtu.be/x").2 ∧
    (∀ t segs, (happySubmitEnv 120).pipeline = .ok (t, segs) →
      (transcribe demoCfg (happySubmitEnv 120) "https://youtu.be/x").1
        = .ok { jobID := none, transcript := t, segments := segs }) :=
  c6_sync_path demoCfg (happySubmitEnv 120) "https://youtu.be/x" 120 rfl rfl (by decide)

/-- C7: on the async path the job is written to the store in status `queued`
strictly before any publish; when the store write fails, nothing is
published and the store's error is returned. -/
theorem c7_put_before_publish (cfg : Config) (env : SubmitEnv) (url : String) (d : Int)
    (hv : env.validURL = true) (hp : env.probe = .ok d) (hd : ¬(d ≤ 120)) :
    (env.putOk = false →
      (transcribe cfg env url).1 = .error .storeFailure ∧
      (transcribe cfg env url).2 = [Ev.storePut .queued] ∧
      Ev.publish ∉ (transcribe cfg env url).2) ∧
    (env.putOk = true →
      (transcribe cfg env url).2 = [Ev.storePut .queued, Ev.publish]) := by
  constructor
  · intro hput
    refine ⟨?_, ?_, ?_⟩ <;> simp [transcribe, hv, hp, hd, hput, newJob]
  · intro hput
    by_cases hpub : env.publishOk = false <;>
      simp [transcribe, hv, hp, hd, hput, hpub, newJob]

/-- C7 (witness): a failing store write returns its error without
publishing, and a successful one puts the queued job before publishing. -/
theorem c7_witness :
    ((transcribe demoCfg storeFailEnv "https://youtu.be/x").1 = .error .storeFailure ∧
     (transcribe demoCfg storeFailEnv "https://youtu.be/x").2 = [Ev.storePut .queued] ∧
     Ev.publish ∉ (transcribe demoCfg storeFailEnv "https://youtu.be/x").2) ∧
    (transcribe demoCfg (happySubmitEnv 600) "https://youtu.be/x").2
        = [Ev.storePut .queued, Ev.publish] :=
  ⟨(c7_put_before_publish demoCfg storeFailEnv "https://youtu.be/x" 600 rfl rfl
      (by decide)).1 rfl,
   (c7_put_before_publish demoCfg (happySubmitEnv 600) "https://youtu.be/x" 600 rfl rfl
      (by decide)).2 rfl⟩

/-- C3: the submit handler never enforces `max_video_length`: with the limit
configured at 1800 s a probed duration of 2000 s is accepted and queued, and
the handler's outcome does not depend on the configuration at all. -/
theorem c3_max_video_length_unenforced :
    demoCfg.maxVideoLength = 1800 ∧
    (transcribe demoCfg (happySubmitEnv 2000) "https://youtu.be/x").1
        = .ok { jobID := some "job", transcript := "", segments := [] } ∧
    (transcribe demoCfg (happySubmitEnv 2000) "https://youtu.be/x").2
        = [Ev.storePut .queued, Ev.publish] ∧
    ∀ cfg : Config, transcribe cfg (happySubmitEnv 2000) "https://youtu.be/x"
        = transcribe demoCfg (happySubmitEnv 2000) "https://youtu.be/x" :=
  ⟨rfl, rfl, rfl, fun cfg => rfl⟩

/-- C1: the worker handler never consults the job's status: delivering an
already-completed job re-runs the pipeline and succeeds, and two deliveries
of the same completed job emit two `job.completed` webhooks instead of
one. -/
theorem c1_duplicate_delivery_reruns :
    completedJob.status = JobStatus.complete ∧
    Ev.pipelineRun ∈ (processJobAsync demoCfg happyWorkerEnv completedJob).2 ∧
    (processJobAsync demoCfg happyWorkerEnv completedJob).1 = .ok () ∧
    ((processJobAsync demoCfg happyWorkerEnv completedJob).2 ++
        (processJobAsync demoCfg happyWorkerEnv completedJob).2).count
      (Ev.webhook .completed) = 2 := by
  refine ⟨rfl, ?_, rfl, ?_⟩ <;> decide

/-- C2 (counterexample): in a successful worker run with webhooks
configured, `job.started` is emitted strictly before the store update that
sets `running`, contradicting the claimed ordering. -/
theorem c2_counterexample :
    Ev.webhook .started
        ∈ (processJobAsync demoCfg happyWorkerEnv (newJob "https://youtu.be/x")).2 ∧
    Ev.storeUpdate .running
        ∈ (processJobAsync demoCfg happyWorkerEnv (newJob "https://youtu.be/x")).2 ∧
    ¬((processJobAsync demoCfg happyWorkerEnv (newJob "https://youtu.be/x")).2.indexOf
          (Ev.storeUpdate .running)
        < (processJobAsync demoCfg happyWorkerEnv (newJob "https://youtu.be/x")).2.indexOf
          (Ev.webhook .started)) := by
  refine ⟨?_, ?_, ?_⟩ <;> decide

/-- C2 (amended): in every worker run, `job.completed` is emitted only after
the store update that sets `complete` and `job.failed` only after the update
that sets `error`; `job.started`, however, always precedes the store update
that sets `running`. -/
theorem c2_webhook_ordering (cfg : Config) (env : WorkerEnv) (job : Job) :
    (Ev.webhook .completed ∈ (processJobAsync cfg env job).2 →
      Ev.storeUpdate .complete ∈ (processJobAsync cfg env job).2 ∧
      (processJobAsync cfg env job).2.indexOf (Ev.storeUpdate .complete)
        < (processJobAsync cfg env job).2.indexOf (Ev.webhook .completed)) ∧
    (Ev.webhook .failed ∈ (processJobAsync cfg env job).2 →
      Ev.storeUpdate .error ∈ (processJobAsync cfg env job).2 ∧
      (processJobAsync cfg env job).2.indexOf (Ev.storeUpdate .error)
        < (processJobAsync cfg env job).2.indexOf (Ev.webhook .failed)) ∧
    (Ev.webhook .started ∈ (processJobAsync cfg env job).2 →
      Ev.storeUpdate .running ∈ (processJobAsync cfg env job).2 ∧
      (processJobAsync cfg env job).2.indexOf (Ev.webhook .started)
        < (processJobAsync cfg env job).2.indexOf (Ev.storeUpdate .running)) := by
  have hcase : ∀ k, sendWebhook cfg k = [] ∨ sendWebhook cfg k = [Ev.webhook k] := by
    intro k
    unfold sendWebhook
    split
    · exact Or.inr rfl
    · exact Or.inl rfl
  obtain hS | hS := hcase .started <;> obtain hF | hF := hcase .failed <;>
    obtain hC | hC := hcase .completed <;>
    rcases hpl : env.pipeline with e | ⟨t0, sg0⟩ <;>
    simp only [processJobAsync, hS, hF, hC, hpl, markRunning, markComplete, markError] <;>
    split_ifs <;>
    dsimp only <;>
    decide

/-- C2 (witness): in the successful run the completion webhook indeed
follows the `complete` update, and the started webhook precedes the
`running` update. -/
theorem c2_witness :
    Ev.storeUpdate .complete
        ∈ (processJobAsync demoCfg happyWorkerEnv (newJob "https://youtu.be/x")).2 ∧
    (processJobAsync demoCfg happyWorkerEnv (newJob "https://youtu.be/x")).2.indexOf
        (Ev.storeUpdate .complete)
      < (processJobAsync demoCfg happyWorkerEnv (newJob "https://youtu.be/x")).2.indexOf
        (Ev.webhook .completed) ∧
    Ev.storeUpdate .running
        ∈ (processJobAsync demoCfg happyWorkerEnv (newJob "https://youtu.be/x")).2 ∧
    (processJobAsync demoCfg happyWorkerEnv (newJob "https://youtu.be/x")).2.indexOf
        (Ev.webhook .started)
      < (processJobAsync demoCfg happyWorkerEnv (newJob "https://youtu.be/x")).2.indexOf
        (Ev.storeUpdate .running) := by
  obtain ⟨hc, hf, hs⟩ := c2_webhook_ordering demoCfg happyWorkerEnv (newJob "https://youtu.be/x")
  have h1 := hc (by decide)
  have h2 := hs (by decide)
  exact ⟨h1.1, h1.2, h2.1, h2.2⟩

/-- C4 (counterexample): a stored job in `complete` with every completion
field populated yields a response whose `subtitle_files` field is absent,
refuting "contains subtitle_files exactly when complete". -/
theorem c4_counterexample :
    completeJobRecord.status = JobStatus.complete ∧
    ((getJobResponse completeJobRecord).transcript).isSome = true ∧
    (getJobResponse completeJobRecord).subtitleFiles = none := by
  refine ⟨rfl, ?_, ?_⟩ <;> decide

/-- C4 (amended): for every stored job satisfying the data-model invariant
(completion time present exactly in terminal states), the status response
always carries id, status and creation time; transcript and segments are
present exactly when the status is `complete`; the error message exactly
when it is `error`; the completion time exactly in the two terminal states;
and `subtitle_files` is never populated by this endpoint. -/
theorem c4_response_fields (job : Job)
    (hwf : job.completedAt.isSome = true ↔ (job.status = .complete ∨ job.status = .error)) :
    (getJobResponse job).id = job.id ∧
    (getJobResponse job).status = statusString job.status ∧
    (getJobResponse job).createdAt = job.createdAt ∧
    (((getJobResponse job).transcript).isSome = true ↔ job.status = .complete) ∧
    (((getJobResponse job).segments).isSome = true ↔ job.status = .complete) ∧
    (((getJobResponse job).errorMsg).isSome = true ↔ job.status = .error) ∧
    (((getJobResponse job).completedAt).isSome = true
        ↔ (job.status = .complete ∨ job.status = .error)) ∧
    (getJobResponse job).subtitleFiles = none ∧
    (job.status = .complete → (getJobResponse job).transcript = some job.transcript ∧
      (getJobResponse job).segments = some job.segments) ∧
    (job.status = .error → (getJobResponse job).errorMsg = some job.errorMsg) := by
  rcases job with ⟨jid, jurl, st, ca, coa, tr, sg, em⟩
  cases st <;> simp_all [getJobResponse, statusString]

/-- C4 (witness): the field presence at a concrete completed job. -/
theorem c4_witness :
    (getJobResponse completeJobRecord).id = completeJobRecord.id ∧
    (getJobResponse completeJobRecord).status = statusString completeJobRecord.status ∧
    (getJobResponse completeJobRecord).createdAt = completeJobRecord.createdAt ∧
    (((getJobResponse completeJobRecord).transcript).isSome = true
        ↔ completeJobRecord.status = .complete) ∧
    (((getJobResponse completeJobRecord).segments).isSome = true
        ↔ completeJobRecord.status = .complete) ∧
    (((getJobResponse completeJobRecord).errorMsg).isSome = true
        ↔ completeJobRecord.status = .error) ∧
    (((getJobResponse completeJobRecord).completedAt).isSome = true
        ↔ (completeJobRecord.status = .complete ∨ completeJobRecord.status = .error)) ∧
    (getJobResponse completeJobRecord).subtitleFiles = none ∧
    (completeJobRecord.status = .complete →
      (getJobResponse completeJobRecord).transcript = some completeJobRecord.transcript ∧
      (getJobResponse completeJobRecord).segments = some completeJobRecord.segments) ∧
    (completeJobRecord.status = .error →
      (getJobResponse completeJobRecord).errorMsg = some completeJobRecord.errorMsg) :=
  c4_response_fields completeJobRecord (by decide)

end

end Omni
